import Mathlib

/-!
Shallow embedding of `src/identifier.rs` (llamadb `Identifier` type).

Strings are modelled as `List Char` (Rust iterates over `char`s, i.e.
Unicode scalar values, which match Lean's `Char`).  The Rust functions
`normalize`, its inner `is_valid`, `Identifier::new`, the `Deref` impl and
the `Display` impl are embedded one-to-one below.
-/

namespace Llamadb

/-- Embedding of Rust `char::to_ascii_lowercase`: only `A`-`Z` are shifted
down by 32 code points; every other character is returned unchanged. -/
def to_ascii_lowercase (c : Char) : Char :=
  if 'A' ≤ c ∧ c ≤ 'Z' then Char.ofNat (c.toNat + 32) else c

/-- The per-character test of the inner match in `is_valid`
(`'a'...'z' | 'A'...'Z' | '0'...'9' | '_' | ' ' => true`). -/
def char_allowed (c : Char) : Bool :=
  decide (('a' ≤ c ∧ c ≤ 'z') ∨ ('A' ≤ c ∧ c ≤ 'Z') ∨
    ('0' ≤ c ∧ c ≤ '9') ∨ c = '_' ∨ c = ' ')

/-- The first-character test of `is_valid`
(`'0'...'9' | ' ' => false`). -/
def first_char_rejected (c : Char) : Bool :=
  decide (('0' ≤ c ∧ c ≤ '9') ∨ c = ' ')

/-- Embedding of the inner `is_valid` function of `normalize` in
`src/identifier.rs`: the empty string is invalid; otherwise the first
character must not be a digit or space, and every character must belong to
the allowed set. -/
def is_valid (value : List Char) : Bool :=
  match value.head? with
  | some c => if first_char_rejected c then false else value.all char_allowed
  | none => false

/-- Embedding of `normalize` in `src/identifier.rs`: on a valid input,
lower-case every character; otherwise return `none`. -/
def normalize (value : List Char) : Option (List Char) :=
  if is_valid value then some (value.map to_ascii_lowercase) else none

/-- Embedding of the `Identifier` struct: a wrapper around the canonical
text buffer.  `derive(PartialEq, Eq)` on the Rust side is structural
equality, which is definitional equality of this structure. -/
structure Identifier where
  value : List Char
deriving DecidableEq

/-- Embedding of `Identifier::new`. -/
def Identifier.new (raw : List Char) : Option Identifier :=
  match normalize raw with
  | some s => some { value := s }
  | none => none

/-- Embedding of the `Deref<Target = str>` impl: the read-only string view
of an identifier is its `value` buffer. -/
def Identifier.deref (a : Identifier) : List Char :=
  a.value

/-- Embedding of the `fmt::Display` impl: `f.write_str(&self.value)`, i.e.
the rendered text is exactly the `value` buffer. -/
def Identifier.display (a : Identifier) : List Char :=
  a.value

/-! ### Character-level lemmas -/

theorem char_le_iff (a b : Char) : a ≤ b ↔ a.toNat ≤ b.toNat := Iff.rfl

theorem char_eq_iff (a b : Char) : a = b ↔ a.toNat = b.toNat :=
  ⟨fun h => h ▸ rfl, fun h => Char.ext (UInt32.ext h)⟩

theorem toNat_char_ofNat {n : Nat} (h : n.isValidChar) : (Char.ofNat n).toNat = n := by
  unfold Char.ofNat
  rw [dif_pos h]
  rfl

theorem toNat_to_ascii_lowercase (c : Char) :
    (to_ascii_lowercase c).toNat =
      if 65 ≤ c.toNat ∧ c.toNat ≤ 90 then c.toNat + 32 else c.toNat := by
  unfold to_ascii_lowercase
  by_cases h : 65 ≤ c.toNat ∧ c.toNat ≤ 90
  · rw [if_pos h, if_pos (show 'A' ≤ c ∧ c ≤ 'Z' from h)]
    exact toNat_char_ofNat (Or.inl (by omega))
  · rw [if_neg h, if_neg (show ¬('A' ≤ c ∧ c ≤ 'Z') from h)]

theorem char_allowed_iff (c : Char) :
    char_allowed c = true ↔
      (97 ≤ c.toNat ∧ c.toNat ≤ 122) ∨ (65 ≤ c.toNat ∧ c.toNat ≤ 90) ∨
        (48 ≤ c.toNat ∧ c.toNat ≤ 57) ∨ c.toNat = 95 ∨ c.toNat = 32 := by
  unfold char_allowed
  simp only [decide_eq_true_iff, char_le_iff, char_eq_iff,
    show ('a' : Char).toNat = 97 from rfl, show ('z' : Char).toNat = 122 from rfl,
    show ('A' : Char).toNat = 65 from rfl, show ('Z' : Char).toNat = 90 from rfl,
    show ('0' : Char).toNat = 48 from rfl, show ('9' : Char).toNat = 57 from rfl,
    show ('_' : Char).toNat = 95 from rfl, show (' ' : Char).toNat = 32 from rfl]

theorem first_char_rejected_iff (c : Char) :
    first_char_rejected c = true ↔ (48 ≤ c.toNat ∧ c.toNat ≤ 57) ∨ c.toNat = 32 := by
  unfold first_char_rejected
  simp only [decide_eq_true_iff, char_le_iff, char_eq_iff,
    show ('0' : Char).toNat = 48 from rfl, show ('9' : Char).toNat = 57 from rfl,
    show (' ' : Char).toNat = 32 from rfl]

theorem char_allowed_lower (c : Char) :
    char_allowed (to_ascii_lowercase c) = char_allowed c := by
  rw [Bool.eq_iff_iff, char_allowed_iff, char_allowed_iff, toNat_to_ascii_lowercase]
  split_ifs with h <;> omega

theorem first_char_rejected_lower (c : Char) :
    first_char_rejected (to_ascii_lowercase c) = first_char_rejected c := by
  rw [Bool.eq_iff_iff, first_char_rejected_iff, first_char_rejected_iff,
    toNat_to_ascii_lowercase]
  split_ifs with h <;> omega

theorem to_ascii_lowercase_idem (c : Char) :
    to_ascii_lowercase (to_ascii_lowercase c) = to_ascii_lowercase c := by
  rw [char_eq_iff, toNat_to_ascii_lowercase, toNat_to_ascii_lowercase]
  split_ifs <;> omega

/-- A character obtained from a permitted character by case folding is an
ASCII lowercase letter, digit, underscore or space. -/
theorem char_allowed_lower_canonical {c : Char} (h : char_allowed c = true) :
    ('a' ≤ to_ascii_lowercase c ∧ to_ascii_lowercase c ≤ 'z') ∨
      ('0' ≤ to_ascii_lowercase c ∧ to_ascii_lowercase c ≤ '9') ∨
      to_ascii_lowercase c = '_' ∨ to_ascii_lowercase c = ' ' := by
  rw [char_allowed_iff] at h
  simp only [char_le_iff, char_eq_iff, toNat_to_ascii_lowercase,
    show ('a' : Char).toNat = 97 from rfl, show ('z' : Char).toNat = 122 from rfl,
    show ('0' : Char).toNat = 48 from rfl, show ('9' : Char).toNat = 57 from rfl,
    show ('_' : Char).toNat = 95 from rfl, show (' ' : Char).toNat = 32 from rfl]
  split_ifs <;> omega

/-- Case folding a character that is not a digit or space yields a
character that is again not a digit or space. -/
theorem lower_not_rejected {c : Char} (h : first_char_rejected c = false) :
    ¬ (('0' ≤ to_ascii_lowercase c ∧ to_ascii_lowercase c ≤ '9') ∨
       to_ascii_lowercase c = ' ') := by
  have h' : ¬((48 ≤ c.toNat ∧ c.toNat ≤ 57) ∨ c.toNat = 32) := by
    rw [← first_char_rejected_iff, h]
    simp
  simp only [char_le_iff, char_eq_iff, toNat_to_ascii_lowercase,
    show ('0' : Char).toNat = 48 from rfl, show ('9' : Char).toNat = 57 from rfl,
    show (' ' : Char).toNat = 32 from rfl]
  split_ifs <;> omega

/-! ### List-level lemmas -/

theorem all_allowed_map_lower (s : List Char) :
    (s.map to_ascii_lowercase).all char_allowed = s.all char_allowed := by
  induction s with
  | nil => rfl
  | cons c cs ih => simp [List.all_cons, char_allowed_lower, ih]

theorem map_lower_idem (s : List Char) :
    (s.map to_ascii_lowercase).map to_ascii_lowercase = s.map to_ascii_lowercase := by
  induction s with
  | nil => rfl
  | cons c cs ih => simp [List.map_cons, to_ascii_lowercase_idem, ih]

/-- Unfolding of `is_valid` on a non-empty string. -/
theorem is_valid_cons (c : Char) (cs : List Char) :
    is_valid (c :: cs) =
      if first_char_rejected c then false else (c :: cs).all char_allowed := rfl

/-- Case folding does not change validity. -/
theorem is_valid_map_lower (s : List Char) :
    is_valid (s.map to_ascii_lowercase) = is_valid s := by
  cases s with
  | nil => rfl
  | cons c cs =>
    rw [List.map_cons, is_valid_cons, is_valid_cons, first_char_rejected_lower]
    by_cases h : first_char_rejected c = true
    · rw [if_pos h, if_pos h]
    · rw [if_neg h, if_neg h, ← List.map_cons, all_allowed_map_lower]

/-- Closed form of `Identifier.new`. -/
theorem new_eq (raw : List Char) :
    Identifier.new raw =
      if is_valid raw then some ⟨raw.map to_ascii_lowercase⟩ else none := by
  unfold Identifier.new normalize
  by_cases h : is_valid raw = true
  · rw [if_pos h, if_pos h]
  · rw [if_neg h, if_neg h]

/-- The constructor fails exactly on invalid input. -/
theorem new_none_iff_not_valid (raw : List Char) :
    Identifier.new raw = none ↔ is_valid raw = false := by
  rw [new_eq]
  by_cases h : is_valid raw = true
  · rw [if_pos h, h]
    simp
  · rw [if_neg h]
    simp [Bool.eq_false_iff, h]

/-- Characterization of invalidity in terms of the two character tests. -/
theorem is_valid_false_iff (raw : List Char) :
    is_valid raw = false ↔
      raw = [] ∨ (∃ c, raw.head? = some c ∧ first_char_rejected c = true) ∨
        ∃ c ∈ raw, char_allowed c = false := by
  cases raw with
  | nil => simp [is_valid]
  | cons c cs =>
    rw [is_valid_cons]
    by_cases h : first_char_rejected c = true
    · simp only [if_pos h]
      constructor
      · intro _
        exact Or.inr (Or.inl ⟨c, List.head?_cons, h⟩)
      · intro _
        trivial
    · simp only [if_neg h, List.cons_ne_nil, false_or, List.head?_cons,
        Option.some.injEq]
      constructor
      · intro hall
        rcases List.all_eq_false.mp hall with ⟨x, hx, hxf⟩
        exact Or.inr ⟨x, hx, by simpa using hxf⟩
      · rintro (⟨d, rfl, hd⟩ | ⟨x, hx, hxf⟩)
        · exact absurd hd h
        · exact List.all_eq_false.mpr ⟨x, hx, by simp [hxf]⟩

/-- The relation "`c'` differs from `c` at most in ASCII letter case". -/
def recased (c c' : Char) : Prop :=
  c' = c ∨ ('A' ≤ c ∧ c ≤ 'Z' ∧ c'.toNat = c.toNat + 32) ∨
    ('a' ≤ c ∧ c ≤ 'z' ∧ c.toNat = c'.toNat + 32)

instance (c c' : Char) : Decidable (recased c c') := by
  unfold recased
  infer_instance

/-- Re-cased characters fold to the same character. -/
theorem recased_lower_eq {c c' : Char} (h : recased c c') :
    to_ascii_lowercase c = to_ascii_lowercase c' := by
  rcases h with rfl | ⟨h1, h2, h3⟩ | ⟨h1, h2, h3⟩
  · rfl
  · have h1' : 65 ≤ c.toNat := h1
    have h2' : c.toNat ≤ 90 := h2
    rw [char_eq_iff, toNat_to_ascii_lowercase, toNat_to_ascii_lowercase]
    split_ifs <;> omega
  · have h1' : 97 ≤ c.toNat := h1
    have h2' : c.toNat ≤ 122 := h2
    rw [char_eq_iff, toNat_to_ascii_lowercase, toNat_to_ascii_lowercase]
    split_ifs <;> omega

/-- Re-cased strings fold to the same canonical string. -/
theorem forall2_recased_map_lower {s s' : List Char}
    (h : List.Forall₂ recased s s') :
    s.map to_ascii_lowercase = s'.map to_ascii_lowercase := by
  induction h with
  | nil => rfl
  | cons hr _ ih => simp only [List.map_cons, recased_lower_eq hr, ih]

/-- Re-cased strings are equally valid. -/
theorem forall2_recased_is_valid {s s' : List Char}
    (h : List.Forall₂ recased s s') :
    is_valid s = is_valid s' := by
  rw [← is_valid_map_lower s, ← is_valid_map_lower s', forall2_recased_map_lower h]

/-- Structural equality of identifiers is equality of the value buffers. -/
theorem identifier_mk_eq_iff (a b : Identifier) : a = b ↔ a.value = b.value := by
  cases a
  cases b
  simp

/-! ### Claim theorems -/

/-- Claim C1: `Identifier.new raw` returns `none` if and only if `raw` is
invalid, i.e. exactly when `raw` is empty, or its first character is an
ASCII digit or the space character, or some character of `raw` is outside
the set `a`-`z`, `A`-`Z`, `0`-`9`, underscore, space; there is no other
failure mode and no error detail is produced. -/
theorem new_none_iff_invalid (raw : List Char) :
    Identifier.new raw = none ↔
      raw = [] ∨
        (∃ c, raw.head? = some c ∧ (('0' ≤ c ∧ c ≤ '9') ∨ c = ' ')) ∨
        ∃ c ∈ raw, ¬ (('a' ≤ c ∧ c ≤ 'z') ∨ ('A' ≤ c ∧ c ≤ 'Z') ∨
          ('0' ≤ c ∧ c ≤ '9') ∨ c = '_' ∨ c = ' ') := by
  rw [new_none_iff_not_valid, is_valid_false_iff]
  simp only [first_char_rejected, char_allowed, decide_eq_true_iff,
    decide_eq_false_iff_not]

/-- Claim C2: for every valid input (non-empty, first character neither a
digit nor a space, every character in the allowed set), `Identifier.new`
returns an identifier whose stored value is exactly the input with every
character mapped through ASCII lowercase folding, preserving length and
position. -/
theorem new_valid_eq_map_lower (raw : List Char) (hne : raw ≠ [])
    (hfirst : ¬ (('0' ≤ raw.headI ∧ raw.headI ≤ '9') ∨ raw.headI = ' '))
    (hall : ∀ c ∈ raw, ('a' ≤ c ∧ c ≤ 'z') ∨ ('A' ≤ c ∧ c ≤ 'Z') ∨
      ('0' ≤ c ∧ c ≤ '9') ∨ c = '_' ∨ c = ' ') :
    Identifier.new raw = some ⟨raw.map to_ascii_lowercase⟩ ∧
      (raw.map to_ascii_lowercase).length = raw.length ∧
      ∀ i : Nat, (raw.map to_ascii_lowercase)[i]? =
        (raw[i]?).map to_ascii_lowercase := by
  have hv : is_valid raw = true := by
    cases raw with
    | nil => exact absurd rfl hne
    | cons c cs =>
      have hfc : ¬ first_char_rejected c = true := by
        intro hc
        have hp : ('0' ≤ c ∧ c ≤ '9') ∨ c = ' ' := by
          simpa [first_char_rejected] using hc
        exact hfirst hp
      rw [is_valid_cons, if_neg hfc, List.all_eq_true]
      intro x hx
      simpa [char_allowed] using hall x hx
  exact ⟨by rw [new_eq, if_pos hv], by simp, fun i => by simp⟩

/-- Witness for claim C2 at the input `"Hello World"`. -/
theorem new_valid_eq_map_lower_witness :
    Identifier.new ['H','e','l','l','o',' ','W','o','r','l','d'] =
      some ⟨['H','e','l','l','o',' ','W','o','r','l','d'].map to_ascii_lowercase⟩ :=
  (new_valid_eq_map_lower ['H','e','l','l','o',' ','W','o','r','l','d']
    (by decide) (by decide) (by decide)).1

/-- Claim C3: every identifier `Identifier.new` ever constructs has a
non-empty value, every character of the value is an ASCII lowercase letter,
digit, underscore or space, and the first character of the value is neither
a digit nor a space. -/
theorem new_invariants (raw : List Char) (a : Identifier)
    (h : Identifier.new raw = some a) :
    a.value ≠ [] ∧
      (∀ c ∈ a.value, ('a' ≤ c ∧ c ≤ 'z') ∨ ('0' ≤ c ∧ c ≤ '9') ∨
        c = '_' ∨ c = ' ') ∧
      ¬ (('0' ≤ a.value.headI ∧ a.value.headI ≤ '9') ∨ a.value.headI = ' ') := by
  rw [new_eq] at h
  by_cases hv : is_valid raw = true
  · rw [if_pos hv] at h
    obtain rfl := (Option.some.inj h).symm
    cases raw with
    | nil => exact absurd hv (by decide)
    | cons c cs =>
      rw [is_valid_cons] at hv
      by_cases hfc : first_char_rejected c = true
      · rw [if_pos hfc] at hv
        exact absurd hv (by decide)
      · rw [if_neg hfc] at hv
        have hfc' : first_char_rejected c = false := by
          simpa using hfc
        refine ⟨by simp, ?_, ?_⟩
        · intro d hd
          simp only [List.mem_map] at hd
          obtain ⟨e, he, rfl⟩ := hd
          have hae : char_allowed e = true := List.all_eq_true.mp hv e he
          exact char_allowed_lower_canonical hae
        · have hh : (Identifier.mk ((c :: cs).map to_ascii_lowercase)).value.headI
              = to_ascii_lowercase c := rfl
          rw [hh]
          exact lower_not_rejected hfc'
  · rw [if_neg hv] at h
    exact Option.noConfusion h

/-- Witness for claim C3 at the input `"Ab_1 C"`. -/
theorem new_invariants_witness :
    (Identifier.mk ['a','b','_','1',' ','c']).value ≠ [] :=
  (new_invariants ['A','b','_','1',' ','C']
    (Identifier.mk ['a','b','_','1',' ','c']) (by decide)).1

/-- Claim C4: normalization is idempotent: whenever `Identifier.new s`
succeeds with result `a`, re-running `Identifier.new` on the canonical text
`a.value` succeeds and returns `a` itself. -/
theorem new_idempotent (s : List Char) (a : Identifier)
    (h : Identifier.new s = some a) :
    Identifier.new a.value = some a := by
  rw [new_eq] at h
  by_cases hv : is_valid s = true
  · rw [if_pos hv] at h
    obtain rfl := (Option.some.inj h).symm
    show Identifier.new (s.map to_ascii_lowercase) = _
    rw [new_eq, is_valid_map_lower, if_pos hv, map_lower_idem]
  · rw [if_neg hv] at h
    exact Option.noConfusion h

/-- Witness for claim C4 at the input `"AB"`. -/
theorem new_idempotent_witness :
    Identifier.new (Identifier.mk ['a','b']).value = some (Identifier.mk ['a','b']) :=
  new_idempotent ['A','B'] (Identifier.mk ['a','b']) (by decide)

/-- Claim C5: construction is case-insensitive: for every valid input `s`
and every re-casing `s'` of `s` (same length, characters equal up to ASCII
letter case), `Identifier.new s` and `Identifier.new s'` are equal. -/
theorem new_case_insensitive (s s' : List Char) (_hv : is_valid s = true)
    (h : List.Forall₂ recased s s') :
    Identifier.new s = Identifier.new s' := by
  rw [new_eq, new_eq, forall2_recased_is_valid h, forall2_recased_map_lower h]

/-- Witness for claim C5 at the inputs `"aB"` and `"Ab"`. -/
theorem new_case_insensitive_witness :
    Identifier.new ['a','B'] = Identifier.new ['A','b'] :=
  new_case_insensitive ['a','B'] ['A','b'] (by decide)
    (List.Forall₂.cons (by decide) (List.Forall₂.cons (by decide) List.Forall₂.nil))

/-- Claim C6: for every non-empty string over the allowed alphabet whose
first character is a letter or an underscore, `Identifier.new` succeeds. -/
theorem new_total_on_allowed (s : List Char) (hne : s ≠ [])
    (hall : ∀ c ∈ s, ('a' ≤ c ∧ c ≤ 'z') ∨ ('A' ≤ c ∧ c ≤ 'Z') ∨
      ('0' ≤ c ∧ c ≤ '9') ∨ c = '_' ∨ c = ' ')
    (hfirst : ('a' ≤ s.headI ∧ s.headI ≤ 'z') ∨ ('A' ≤ s.headI ∧ s.headI ≤ 'Z') ∨
      s.headI = '_') :
    ∃ a : Identifier, Identifier.new s = some a := by
  have hv : is_valid s = true := by
    cases s with
    | nil => exact absurd rfl hne
    | cons c cs =>
      have hfc : ¬ first_char_rejected c = true := by
        intro hc
        have hp := (first_char_rejected_iff c).mp hc
        rcases hfirst with ⟨h1, h2⟩ | ⟨h1, h2⟩ | h1
        · have h1' : 97 ≤ c.toNat := h1
          have h2' : c.toNat ≤ 122 := h2
          omega
        · have h1' : 65 ≤ c.toNat := h1
          have h2' : c.toNat ≤ 90 := h2
          omega
        · have h1' : c.toNat = 95 := by
            rw [show c = '_' from h1]
            decide
          omega
      rw [is_valid_cons, if_neg hfc, List.all_eq_true]
      intro x hx
      simpa [char_allowed] using hall x hx
  exact ⟨⟨s.map to_ascii_lowercase⟩, by rw [new_eq, if_pos hv]⟩

/-- Witness for claim C6 at the input `"_1a"`. -/
theorem new_total_on_allowed_witness :
    (Identifier.new ['_','1','a']).isSome = true := by
  obtain ⟨a, ha⟩ := new_total_on_allowed ['_','1','a'] (by decide) (by decide) (by decide)
  rw [ha]
  rfl

/-- Claim C7: two identifiers are equal if and only if their canonical
value buffers are equal as strings. -/
theorem identifier_eq_iff_value_eq (a b : Identifier) :
    a = b ↔ a.value = b.value :=
  identifier_mk_eq_iff a b

/-- Claim C8: an identifier behaves transparently as its canonical text:
the read-only view `Identifier.deref` equals the stored value, equality of
identifiers is equality of the views, and ordering of the views is exactly
ordering of the canonical texts. -/
theorem deref_transparent (a b : Identifier) :
    Identifier.deref a = a.value ∧
      (a = b ↔ Identifier.deref a = Identifier.deref b) ∧
      (Identifier.deref a < Identifier.deref b ↔ a.value < b.value) :=
  ⟨rfl, identifier_mk_eq_iff a b, Iff.rfl⟩

/-- Claim C9: `Display` renders exactly the canonical lower-cased text
stored in the identifier, with no quoting or added decoration. -/
theorem display_eq_value (a : Identifier) : Identifier.display a = a.value := rfl

/-- Claim C10: validity is case-insensitive, also on invalid inputs: for
every string `s` and every re-casing `s'` of `s`, `Identifier.new s`
succeeds exactly when `Identifier.new s'` succeeds. -/
theorem new_isSome_case_insensitive (s s' : List Char)
    (h : List.Forall₂ recased s s') :
    (Identifier.new s).isSome = (Identifier.new s').isSome := by
  rw [new_eq, new_eq, forall2_recased_is_valid h]
  by_cases hv : is_valid s' = true
  · rw [if_pos hv, if_pos hv]
    rfl
  · rw [if_neg hv, if_neg hv]

/-- Witness for claim C10 at the invalid inputs `"1a"` and `"1A"`. -/
theorem new_isSome_case_insensitive_witness :
    (Identifier.new ['1','a']).isSome = (Identifier.new ['1','A']).isSome :=
  new_isSome_case_insensitive ['1','a'] ['1','A']
    (List.Forall₂.cons (by decide) (List.Forall₂.cons (by decide) List.Forall₂.nil))

end Llamadb
